import Mathlib

/-
Verification of the json2markdown renderer (src/lib.rs) and the auxiliary
cht module (src/cht.rs).  The JSON data model, the recursive Markdown
renderer, the sentence-splitting helper and the key-casing helper are
embedded as executable Lean definitions, followed by theorems about them.
-/

namespace Json2Markdown

/-- Configuration of the renderer, mirroring `struct MarkdownRenderer`
in src/lib.rs: `indent_spaces` is the number of spaces per indentation
unit and `depth_increment` the step added to the depth when descending
into nested structures. -/
structure MarkdownRenderer where
  indent_spaces : Nat
  depth_increment : Nat

/-- Mirrors `MarkdownRenderer::new(indent_spaces, depth_increment)`. -/
def MarkdownRenderer.new (indent_spaces depth_increment : Nat) : MarkdownRenderer :=
  ⟨indent_spaces, depth_increment⟩

/-- Mirrors `impl Default for MarkdownRenderer`: indent_spaces = 1,
depth_increment = 2. -/
def MarkdownRenderer.default : MarkdownRenderer :=
  ⟨1, 2⟩

/-- Mirrors `enum RenderStyle` in src/lib.rs. -/
inductive RenderStyle where
  | Root : RenderStyle
  | Section : RenderStyle
  | Subsection : RenderStyle
  | ListItem : RenderStyle
  | NestedItem : RenderStyle

/-
The JSON value model, mirroring `serde_json::Value`.  Object entry lists
and array item lists are spelled out as mutually inductive list types so
that all renderer functions are structurally recursive and computable by
the kernel.  A `num` carries the canonical decimal text of the number,
i.e. exactly the string produced by `n.to_string()` in the Rust code;
the renderer only ever uses that textual form.
-/
mutual
inductive Value where
  | null : Value
  | bool (b : Bool) : Value
  | num (n : String) : Value
  | str (s : String) : Value
  | arr (items : ValueList) : Value
  | obj (entries : EntryList) : Value

inductive ValueList where
  | nil : ValueList
  | cons (v : Value) (rest : ValueList) : ValueList

inductive EntryList where
  | nil : EntryList
  | cons (k : String) (v : Value) (rest : EntryList) : EntryList
end

/-- Mirrors `Map::is_empty` on an object map. -/
def isEmptyE : EntryList → Bool
  | .nil => true
  | .cons _ _ _ => false

/-- Mirrors `Vec::is_empty` on an array. -/
def isEmptyL : ValueList → Bool
  | .nil => true
  | .cons _ _ => false

/-- Object entries as a plain list of key/value pairs (the iteration
order of the map). -/
def EntryList.toList : EntryList → List (String × Value)
  | .nil => []
  | .cons k v rest => (k, v) :: rest.toList

/-- Array items as a plain list. -/
def ValueList.toList : ValueList → List Value
  | .nil => []
  | .cons v rest => v :: rest.toList

/-- The Unicode White_Space code points: the characters matched by the
regex class `\s` of fancy_regex and trimmed by Rust `str::trim`. -/
def isWsChar (c : Char) : Bool :=
  c == ' ' || c == '\t' || c == '\n' || c == '\r' ||
  c.val == 0x0B || c.val == 0x0C || c.val == 0x85 || c.val == 0xA0 ||
  c.val == 0x1680 || (0x2000 ≤ c.val && c.val ≤ 0x200A) ||
  c.val == 0x2028 || c.val == 0x2029 || c.val == 0x202F ||
  c.val == 0x205F || c.val == 0x3000

/-- Whether the characters at the current position match `[A-Z]\.`:
an ASCII capital letter immediately followed by a period. -/
def isAbbrevAhead : List Char → Bool
  | c2 :: c3 :: _ => c2.isUpper && c3 == '.'
  | _ => false

/-
The lookahead `(?=\s+(?![A-Z]\.))` of SPLIT_REGEX, applied to the
characters that follow a period.  The backtracking engine succeeds iff
some non-empty whitespace run can be consumed such that the position
after it does not start with `[A-Z]\.`.  Trying the one-character run
first: if the character after the first whitespace character is again
whitespace the inner negative lookahead succeeds at once (whitespace is
not a capital letter); otherwise no longer run is available, so the
lookahead holds iff the two characters after the single whitespace
character do not match `[A-Z]\.`.  In both cases this is equivalent to:
the first character is whitespace and the characters after it do not
start with `[A-Z]\.`.
-/
def lookaheadOk : List Char → Bool
  | [] => false
  | c1 :: rest => isWsChar c1 && !(isAbbrevAhead rest)

/-- Whether SPLIT_REGEX matches somewhere in the text, i.e. whether
`SPLIT_REGEX.is_match(text)` returns true: some period is followed by a
position where the lookahead holds. -/
def hasMatch : List Char → Bool
  | [] => false
  | c :: rest => (c == '.' && lookaheadOk rest) || hasMatch rest

/-- Worker for `SPLIT_REGEX.split(text)`: scans left to right, cutting
at every match.  Each match consumes exactly the period, so the period
itself is removed from the chunks. `cur` holds the current chunk in
reverse. -/
def splitAux : List Char → List Char → List (List Char)
  | [], cur => [cur.reverse]
  | c :: rest, cur =>
    if c == '.' && lookaheadOk rest then cur.reverse :: splitAux rest []
    else splitAux rest (c :: cur)

/-- Mirrors `SPLIT_REGEX.split(text)`. -/
def regexSplit (cs : List Char) : List (List Char) :=
  splitAux cs []

/-- Mirrors Rust `str::trim`: removes White_Space characters from both
ends. -/
def trimChars (cs : List Char) : List Char :=
  ((cs.dropWhile isWsChar).reverse.dropWhile isWsChar).reverse

/-- Mirrors `MarkdownRenderer::get_indent`:
`" ".repeat(depth * self.indent_spaces)`. -/
def get_indent (cfg : MarkdownRenderer) (depth : Nat) : String :=
  String.mk (List.replicate (depth * cfg.indent_spaces) ' ')

/-- The text appended for one chunk inside the fold of
`split_at_period`: the indentation, the trimmed chunk, then two
newlines. -/
def part_text (cfg : MarkdownRenderer) (depth : Nat) (part : List Char) : String :=
  get_indent cfg depth ++ String.mk (trimChars part) ++ "\n\n"

/-- Mirrors `MarkdownRenderer::split_at_period`.  `none` models the
`Cow::Borrowed` result (the text is returned unchanged because the regex
reported no match); `some s` models the `Cow::Owned` result built by
folding the split chunks. -/
def split_at_period (cfg : MarkdownRenderer) (text : String) (depth : Nat) :
    Option String :=
  if hasMatch text.data then
    some ((regexSplit text.data).foldl
      (fun acc part => acc ++ part_text cfg depth part) "")
  else
    none

/-- One word of `to_title_case`: first character uppercased, the rest
lowercased. -/
def capitalizeWord : List Char → List Char
  | [] => []
  | c :: rest => c.toUpper :: rest.map Char.toLower

/-- Splits a key into words for `to_title_case`: non-alphanumeric
characters separate words, and a capital letter after a lowercase letter
or digit starts a new word.  `cur` holds the current word in reverse. -/
def titleWordsAux : List Char → List Char → List (List Char)
  | [], cur => if cur.isEmpty then [] else [cur.reverse]
  | c :: rest, cur =>
    if !c.isAlphanum then
      if cur.isEmpty then titleWordsAux rest []
      else cur.reverse :: titleWordsAux rest []
    else if c.isUpper && (match cur with
        | p :: _ => p.isLower || p.isDigit
        | [] => false) then
      cur.reverse :: titleWordsAux rest [c]
    else
      titleWordsAux rest (c :: cur)

/-- Model of the external inflections crate's `to_title_case` (the
string casing helper, an external collaborator of the renderer): each
word is capitalized and the words are joined with single spaces. -/
def toTitleCase (s : String) : String :=
  String.intercalate " " ((titleWordsAux s.data []).map
    (fun w => String.mk (capitalizeWord w)))

/-- Mirrors Rust `str::starts_with`: the pattern is a prefix of the
text. -/
def starts_with (s pre : String) : Bool :=
  pre.data.isPrefixOf s.data

/-- The textual form of a Rust bool, `b.to_string()`. -/
def boolText (b : Bool) : String :=
  if b then "true" else "false"

/-- Mirrors the free function `format_value` in src/lib.rs. -/
def format_value (value : String) (style : RenderStyle) (written_before : Bool) :
    String :=
  let before_value := if written_before then ": " else ""
  match style with
  | .ListItem | .NestedItem => before_value ++ value ++ "\n"
  | .Root | .Section | .Subsection => before_value ++ value ++ "\n\n"

/-- The style-transition table at the top of the per-entry loop of
`render_object`: `(new_style, header_marker, depth_increment)` as a
function of `(depth, style)`. -/
def style_transition (cfg : MarkdownRenderer) (depth : Nat) (style : RenderStyle) :
    RenderStyle × String × Nat :=
  match depth, style with
  | 0, .Root => (.Section, "## ", 0)
  | 1, .Section => (.Subsection, "### ", 0)
  | _, _ => (.ListItem, "", cfg.depth_increment)

/-- The `formatted_key` computation of `render_object`. -/
def formatted_key (indent header_marker : String) (new_style : RenderStyle)
    (key : String) : String :=
  match new_style with
  | .Section | .Subsection => indent ++ header_marker ++ toTitleCase key ++ "\n\n"
  | .ListItem => indent ++ "- **" ++ toTitleCase key ++ "**"
  | _ => toTitleCase key

mutual

/-- Mirrors `MarkdownRenderer::render_value`: dispatch on the value
kind.  For scalars this is `format_value` on the canonical text; `null`
becomes the literal text `N/A`. -/
def render_value (cfg : MarkdownRenderer) (v : Value) (depth : Nat)
    (style : RenderStyle) (written_before : Bool) : String :=
  match v with
  | .obj entries => render_object cfg entries depth style
  | .arr items => render_array cfg items depth style
  | .str s => format_value s style written_before
  | .num n => format_value n style written_before
  | .bool b => format_value (boolText b) style written_before
  | .null => format_value "N/A" style written_before

/-- The body of the per-entry loop of `render_object`: the text appended
for one `(key, value)` pair at the given `(depth, style)`.  The scalar
and empty-container arms inline the corresponding one-step dispatch of
`render_value` (on a scalar it is `format_value`; on an empty container
it is a `render_object`/`render_array` call on the empty list). -/
def obj_entry_text (cfg : MarkdownRenderer) (depth : Nat) (style : RenderStyle)
    (key : String) (value : Value) : String :=
  let indent := get_indent cfg depth
  let t := style_transition cfg depth style
  let new_style := t.1
  let header_marker := t.2.1
  let depth_inc := t.2.2
  let keyText := formatted_key indent header_marker new_style key
  let valueText :=
    match value with
    | .obj inner =>
      if isEmptyE inner then
        render_object cfg inner (depth + depth_inc) RenderStyle.NestedItem
      else
        "\n\n" ++ render_object cfg inner (depth + depth_inc) new_style
    | .arr items =>
      if isEmptyL items then
        render_array cfg items (depth + depth_inc) RenderStyle.NestedItem
      else
        "\n\n" ++ render_array cfg items (depth + depth_inc) RenderStyle.NestedItem
          ++ "\n\n"
    | .str s =>
      "\n\n" ++
      (if starts_with s "http" then indent ++ s
       else
         let is_in_root := depth_inc == 0
         let adjusted_depth := if is_in_root then 0 else depth + 2
         match split_at_period cfg s adjusted_depth with
         | some owned => owned
         | none => if is_in_root then s else indent ++ s) ++ "\n"
    | .num n => format_value n RenderStyle.NestedItem true
    | .bool b => format_value (boolText b) RenderStyle.NestedItem true
    | .null => format_value "N/A" RenderStyle.NestedItem true
  keyText ++ valueText

/-- Mirrors `MarkdownRenderer::render_object`: appends the entry text of
every key/value pair in iteration order. -/
def render_object (cfg : MarkdownRenderer) (entries : EntryList) (depth : Nat)
    (style : RenderStyle) : String :=
  match entries with
  | .nil => ""
  | .cons key value rest =>
    obj_entry_text cfg depth style key value ++ render_object cfg rest depth style

/-- The body of the per-item loop of `render_array`: the text appended
for one item.  The hyphen marker is emitted only for items that are not
non-empty objects or arrays; scalar arms inline the one-step dispatch of
`render_value` as in `obj_entry_text`. -/
def arr_item_text (cfg : MarkdownRenderer) (depth : Nat) (style : RenderStyle)
    (item : Value) : String :=
  let indent := get_indent cfg depth
  let marker :=
    match style with
    | .NestedItem => "  - "
    | _ => "- "
  match item with
  | .obj inner =>
    if isEmptyE inner then
      indent ++ marker ++
        render_object cfg inner (depth + cfg.depth_increment) RenderStyle.NestedItem
    else
      render_object cfg inner (depth + cfg.depth_increment) RenderStyle.NestedItem
  | .arr items =>
    if isEmptyL items then
      indent ++ marker ++
        render_array cfg items (depth + cfg.depth_increment) RenderStyle.NestedItem
    else
      render_array cfg items (depth + cfg.depth_increment) RenderStyle.NestedItem
  | .str s => indent ++ marker ++ s ++ "\n"
  | .num n => indent ++ marker ++ format_value n RenderStyle.NestedItem false
  | .bool b =>
    indent ++ marker ++ format_value (boolText b) RenderStyle.NestedItem false
  | .null => indent ++ marker ++ format_value "N/A" RenderStyle.NestedItem false

/-- Mirrors `MarkdownRenderer::render_array`. -/
def render_array (cfg : MarkdownRenderer) (items : ValueList) (depth : Nat)
    (style : RenderStyle) : String :=
  match items with
  | .nil => ""
  | .cons item rest =>
    arr_item_text cfg depth style item ++ render_array cfg rest depth style

end

/-- Mirrors `MarkdownRenderer::render`: the public entry point starts at
depth 0 with style Root and nothing written before. -/
def render (cfg : MarkdownRenderer) (json : Value) : String :=
  render_value cfg json 0 RenderStyle.Root false

/-- Worker for Rust `str::replace`, scanning left to right and replacing
non-overlapping occurrences.  The fuel argument only bounds the
recursion; any fuel at least the length of the scanned text gives the
replace semantics, because every step consumes at least one character
when the pattern is non-empty. -/
def replaceAux (pat rep : List Char) : Nat → List Char → List Char
  | 0, s => s
  | _ + 1, [] => []
  | fuel + 1, c :: rest =>
    if pat.isPrefixOf (c :: rest) && !pat.isEmpty then
      rep ++ replaceAux pat rep fuel (List.drop pat.length (c :: rest))
    else
      c :: replaceAux pat rep fuel rest

/-- Model of Rust `str::replace`, as used by the cleanup line
`markdown.replace("#######", "######")` in `just_do_it` of
src/cht.rs. -/
def str_replace (s pat rep : String) : String :=
  String.mk (replaceAux pat.data rep.data s.data.length s.data)

/-- `pat` occurs contiguously inside `s`. -/
def IsSubstr (pat s : String) : Prop :=
  pat.data <:+: s.data

instance (pat s : String) : Decidable (IsSubstr pat s) :=
  inferInstanceAs (Decidable (pat.data <:+: s.data))

/-- Nulls occurring anywhere inside a JSON value: at the root, as the
value of an object entry, or as an array item. -/
inductive HasNull : Value → Prop where
  | here : HasNull Value.null
  | inObj {k : String} {v : Value} {entries : EntryList} :
      (k, v) ∈ entries.toList → HasNull v → HasNull (Value.obj entries)
  | inArr {v : Value} {items : ValueList} :
      v ∈ items.toList → HasNull v → HasNull (Value.arr items)

/-- A qualifying split point of SPLIT_REGEX at position `i`: a period
whose following characters satisfy the lookahead. -/
def QualSplitAt (cs : List Char) (i : Nat) : Prop :=
  ∃ rest, cs.drop i = '.' :: rest ∧ lookaheadOk rest = true

theorem data_append (a b : String) : (a ++ b).data = a.data ++ b.data :=
  rfl

theorem IsSubstr.refl (s : String) : IsSubstr s s :=
  ⟨[], [], by simp⟩

theorem IsSubstr.trans {p q s : String} (h1 : IsSubstr p q) (h2 : IsSubstr q s) :
    IsSubstr p s :=
  List.IsInfix.trans h1 h2

theorem IsSubstr.append_left {pat s : String} (t : String) (h : IsSubstr pat s) :
    IsSubstr pat (t ++ s) := by
  obtain ⟨a, b, hab⟩ := h
  exact ⟨t.data ++ a, b, by rw [data_append, ← hab]; simp⟩

theorem IsSubstr.append_right {pat s : String} (t : String) (h : IsSubstr pat s) :
    IsSubstr pat (s ++ t) := by
  obtain ⟨a, b, hab⟩ := h
  exact ⟨a, b ++ t.data, by rw [data_append, ← hab]; simp⟩

/-- Every entry of an object contributes its entry text contiguously to
the object rendering. -/
theorem entry_substr (cfg : MarkdownRenderer) {k : String} {v : Value} :
    ∀ (entries : EntryList) (depth : Nat) (style : RenderStyle),
      (k, v) ∈ entries.toList →
      IsSubstr (obj_entry_text cfg depth style k v)
        (render_object cfg entries depth style)
  | .nil, _, _, h => by simp [EntryList.toList] at h
  | .cons k1 v1 rest, depth, style, h => by
      rw [EntryList.toList] at h
      rcases List.mem_cons.mp h with heq | hmem
      · cases heq
        simp only [render_object]
        exact (IsSubstr.refl _).append_right _
      · simp only [render_object]
        exact (entry_substr cfg rest depth style hmem).append_left _

/-- Every item of an array contributes its item text contiguously to the
array rendering. -/
theorem item_substr (cfg : MarkdownRenderer) {v : Value} :
    ∀ (items : ValueList) (depth : Nat) (style : RenderStyle),
      v ∈ items.toList →
      IsSubstr (arr_item_text cfg depth style v)
        (render_array cfg items depth style)
  | .nil, _, _, h => by simp [ValueList.toList] at h
  | .cons v1 rest, depth, style, h => by
      rw [ValueList.toList] at h
      rcases List.mem_cons.mp h with heq | hmem
      · cases heq
        simp only [render_array]
        exact (IsSubstr.refl _).append_right _
      · simp only [render_array]
        exact (item_substr cfg rest depth style hmem).append_left _

/-- The scalar formatter keeps the formatted text in the middle of its
output, so formatting the text `N/A` always leaves `N/A` visible. -/
theorem format_na_substr (style : RenderStyle) (wb : Bool) :
    IsSubstr "N/A" (format_value "N/A" style wb) := by
  cases style <;> cases wb <;> decide

/-- If a value containing a null is placed as an object entry, the entry
text contains `N/A`, assuming the rendering of the value itself does. -/
theorem hasNull_entry {v : Value} (hn : HasNull v)
    (ih : ∀ (cfg : MarkdownRenderer) (d : Nat) (s : RenderStyle) (wb : Bool),
      IsSubstr "N/A" (render_value cfg v d s wb)) :
    ∀ (cfg : MarkdownRenderer) (d : Nat) (s : RenderStyle) (k : String),
      IsSubstr "N/A" (obj_entry_text cfg d s k v) := by
  intro cfg d s k
  cases v with
  | null =>
    simp only [obj_entry_text]
    exact (format_na_substr _ _).append_left _
  | bool b => nomatch hn
  | num n => nomatch hn
  | str s1 => nomatch hn
  | obj inner =>
    cases inner with
    | nil =>
      cases hn with
      | inObj hm _ => simp [EntryList.toList] at hm
    | cons k1 v1 rest =>
      simp only [obj_entry_text, isEmptyE, Bool.false_eq_true, if_false]
      have h := ih cfg (d + (style_transition cfg d s).2.2)
        (style_transition cfg d s).1 true
      simp only [render_value] at h
      exact (h.append_left _).append_left _
  | arr items =>
    cases items with
    | nil =>
      cases hn with
      | inArr hm _ => simp [ValueList.toList] at hm
    | cons v1 rest =>
      simp only [obj_entry_text, isEmptyL, Bool.false_eq_true, if_false]
      have h := ih cfg (d + (style_transition cfg d s).2.2)
        RenderStyle.NestedItem true
      simp only [render_value] at h
      exact (((h.append_left _).append_right _).append_left _)

/-- If a value containing a null is placed as an array item, the item
text contains `N/A`, assuming the rendering of the value itself does. -/
theorem hasNull_item {v : Value} (hn : HasNull v)
    (ih : ∀ (cfg : MarkdownRenderer) (d : Nat) (s : RenderStyle) (wb : Bool),
      IsSubstr "N/A" (render_value cfg v d s wb)) :
    ∀ (cfg : MarkdownRenderer) (d : Nat) (s : RenderStyle),
      IsSubstr "N/A" (arr_item_text cfg d s v) := by
  intro cfg d s
  cases v with
  | null =>
    simp only [arr_item_text]
    exact (format_na_substr _ _).append_left _
  | bool b => nomatch hn
  | num n => nomatch hn
  | str s1 => nomatch hn
  | obj inner =>
    cases inner with
    | nil =>
      cases hn with
      | inObj hm _ => simp [EntryList.toList] at hm
    | cons k1 v1 rest =>
      simp only [arr_item_text, isEmptyE, Bool.false_eq_true, if_false]
      have h := ih cfg (d + cfg.depth_increment) RenderStyle.NestedItem true
      simp only [render_value] at h
      exact h
  | arr items =>
    cases items with
    | nil =>
      cases hn with
      | inArr hm _ => simp [ValueList.toList] at hm
    | cons v1 rest =>
      simp only [arr_item_text, isEmptyL, Bool.false_eq_true, if_false]
      have h := ih cfg (d + cfg.depth_increment) RenderStyle.NestedItem true
      simp only [render_value] at h
      exact h

/-- A null anywhere inside a value leaves the text `N/A` in the output
of `render_value`, at every configuration, depth and style. -/
theorem hasNull_render {v : Value} (hn : HasNull v) :
    ∀ (cfg : MarkdownRenderer) (d : Nat) (s : RenderStyle) (wb : Bool),
      IsSubstr "N/A" (render_value cfg v d s wb) := by
  induction hn with
  | here =>
    intro cfg d s wb
    simp only [render_value]
    exact format_na_substr s wb
  | inObj hm hn1 ih =>
    intro cfg d s wb
    simp only [render_value]
    exact (hasNull_entry hn1 ih cfg d s _).trans (entry_substr cfg _ d s hm)
  | inArr hm hn1 ih =>
    intro cfg d s wb
    simp only [render_value]
    exact (hasNull_item hn1 ih cfg d s).trans (item_substr cfg _ d s hm)

/-- The split worker always produces at least one chunk. -/
theorem splitAux_length_pos : ∀ (cs cur : List Char), 1 ≤ (splitAux cs cur).length := by
  intro cs
  induction cs with
  | nil => intro cur; simp [splitAux]
  | cons c rest ih =>
    intro cur
    cases hb : (c == '.' && lookaheadOk rest) with
    | true => simp [splitAux, hb]
    | false =>
      simp only [splitAux, hb, Bool.false_eq_true, if_false]
      exact ih _

/-- If the regex reports a match, the split produces at least two
chunks: splitting cannot degenerate after a reported match. -/
theorem hasMatch_splitAux_two :
    ∀ (cs cur : List Char), hasMatch cs = true → 2 ≤ (splitAux cs cur).length := by
  intro cs
  induction cs with
  | nil => intro cur h; simp [hasMatch] at h
  | cons c rest ih =>
    intro cur h
    cases hb : (c == '.' && lookaheadOk rest) with
    | true =>
      have := splitAux_length_pos rest []
      simp only [splitAux, hb, if_true, List.length_cons]
      omega
    | false =>
      simp only [hasMatch, hb, Bool.false_or] at h
      simp only [splitAux, hb, Bool.false_eq_true, if_false]
      exact ih _ h

/-- `hasMatch` holds exactly when some position of the text is a
qualifying split point. -/
theorem hasMatch_iff_qual :
    ∀ (cs : List Char), hasMatch cs = true ↔ ∃ i, QualSplitAt cs i := by
  intro cs
  induction cs with
  | nil => simp [hasMatch, QualSplitAt]
  | cons c rest ih =>
    simp only [hasMatch, Bool.or_eq_true, Bool.and_eq_true, beq_iff_eq]
    constructor
    · rintro (⟨hc, hl⟩ | h)
      · exact ⟨0, rest, by rw [hc]; simp, hl⟩
      · obtain ⟨i, hq⟩ := ih.mp h
        obtain ⟨rest1, hdrop, hl⟩ := hq
        exact ⟨i + 1, rest1, by simpa [List.drop_succ_cons] using hdrop, hl⟩
    · rintro ⟨i, rest1, hdrop, hl⟩
      cases i with
      | zero =>
        simp only [List.drop_zero, List.cons.injEq] at hdrop
        obtain ⟨hc, hr⟩ := hdrop
        subst hc
        subst hr
        exact Or.inl ⟨rfl, hl⟩
      | succ i =>
        refine Or.inr (ih.mpr ⟨i, rest1, ?_, hl⟩)
        simpa [List.drop_succ_cons] using hdrop

/-- The buffer fold of `split_at_period` equals joining the mapped chunk
texts. -/
theorem foldl_parts (cfg : MarkdownRenderer) (depth : Nat) :
    ∀ (parts : List (List Char)) (acc : String),
      parts.foldl (fun a p => a ++ part_text cfg depth p) acc
        = acc ++ (parts.map (part_text cfg depth)).foldr (· ++ ·) "" := by
  intro parts
  induction parts with
  | nil =>
    intro acc
    simp [String.append_empty]
  | cons p ps ih =>
    intro acc
    simp only [List.foldl_cons, List.map_cons, List.foldr_cons]
    rw [ih, String.append_assoc]

/-- C1, counterexample: for the input where the top-level key "a" maps
to the non-empty object with key "b", the rendered output contains no H3
marker at all; the second-level key is not rendered as an H3 header. -/
theorem second_level_key_not_h3 :
    render MarkdownRenderer.default
        (Value.obj (EntryList.cons "a"
          (Value.obj (EntryList.cons "b" (Value.str "x") EntryList.nil))
          EntryList.nil))
      = "## A\n\n\n\n- **B**\n\nx\n" ∧
    ¬ IsSubstr "### "
      (render MarkdownRenderer.default
        (Value.obj (EntryList.cons "a"
          (Value.obj (EntryList.cons "b" (Value.str "x") EntryList.nil))
          EntryList.nil))) := by
  constructor
  · decide
  · decide

/-- C1, amended: each key of a non-empty object sitting under a
top-level key is rendered as a bold list item `- **Title Cased Key**`
(the Subsection case of the transition table is unreachable, because the
header transitions add zero to the depth, so the inner object is
rendered at depth 0 with style Section, which the table sends to
ListItem). -/
theorem second_level_key_bold_list_item (cfg : MarkdownRenderer)
    (entries inner : EntryList) (k k1 : String) (v1 : Value)
    (h1 : (k, Value.obj inner) ∈ entries.toList)
    (h2 : (k1, v1) ∈ inner.toList) :
    IsSubstr ("- **" ++ toTitleCase k1 ++ "**") (render cfg (Value.obj entries)) := by
  have houter := entry_substr cfg entries 0 RenderStyle.Root h1
  have hinner := entry_substr cfg inner 0 RenderStyle.Section h2
  have hind : get_indent cfg 0 = "" := by
    rw [get_indent, Nat.zero_mul]
    rfl
  have hpat : IsSubstr ("- **" ++ toTitleCase k1 ++ "**")
      (obj_entry_text cfg 0 RenderStyle.Section k1 v1) := by
    cases v1 <;>
      simp only [obj_entry_text, style_transition, formatted_key, hind,
        String.empty_append] <;>
      exact (IsSubstr.refl _).append_right _
  have hmid : IsSubstr (render_object cfg inner 0 RenderStyle.Section)
      (obj_entry_text cfg 0 RenderStyle.Root k (Value.obj inner)) := by
    cases inner with
    | nil => simp [EntryList.toList] at h2
    | cons ik iv irest =>
      simp only [obj_entry_text, style_transition, isEmptyE,
        Bool.false_eq_true, if_false]
      exact ((IsSubstr.refl _).append_left _).append_left _
  show IsSubstr _ (render_value cfg (Value.obj entries) 0 RenderStyle.Root false)
  simp only [render_value]
  exact ((hpat.trans hinner).trans hmid).trans houter

/-- C1, witness for the amended theorem at the input
`{"a": {"b": "x"}}` with the default configuration. -/
theorem second_level_key_bold_list_item_witness :
    IsSubstr ("- **" ++ toTitleCase "b" ++ "**")
      (render MarkdownRenderer.default
        (Value.obj (EntryList.cons "a"
          (Value.obj (EntryList.cons "b" (Value.str "x") EntryList.nil))
          EntryList.nil))) :=
  second_level_key_bold_list_item MarkdownRenderer.default
    (EntryList.cons "a"
      (Value.obj (EntryList.cons "b" (Value.str "x") EntryList.nil)) EntryList.nil)
    (EntryList.cons "b" (Value.str "x") EntryList.nil)
    "a" "b" (Value.str "x")
    (by simp [EntryList.toList]) (by simp [EntryList.toList])

/-- C2, counterexample: rendering `{"a": {"b": {"c": "x"}}}` with the
default configuration yields no `### ` header and does not put the
scalar on the same line as the `- **C**` bullet. -/
theorem nested_example_not_as_claimed :
    ¬ IsSubstr "### "
      (render MarkdownRenderer.default
        (Value.obj (EntryList.cons "a" (Value.obj (EntryList.cons "b"
          (Value.obj (EntryList.cons "c" (Value.str "x") EntryList.nil))
          EntryList.nil)) EntryList.nil))) ∧
    ¬ IsSubstr "**C**: x"
      (render MarkdownRenderer.default
        (Value.obj (EntryList.cons "a" (Value.obj (EntryList.cons "b"
          (Value.obj (EntryList.cons "c" (Value.str "x") EntryList.nil))
          EntryList.nil)) EntryList.nil))) := by
  constructor
  · decide
  · decide

/-- C2, amended: rendering `{"a": {"b": {"c": "x"}}}` with the default
configuration produces `## A`, two blank lines, the bold bullet
`- **B**`, a blank line, the indented bold bullet `- **C**`, a blank
line, and the string value on its own indented line. -/
theorem nested_example_render_eq :
    render MarkdownRenderer.default
        (Value.obj (EntryList.cons "a" (Value.obj (EntryList.cons "b"
          (Value.obj (EntryList.cons "c" (Value.str "x") EntryList.nil))
          EntryList.nil)) EntryList.nil))
      = "## A\n\n\n\n- **B**\n\n  - **C**\n\n  x\n" := by
  decide

/-- C3, counterexample: rendering `{"title": "My Project"}` with the
default configuration does not produce the claimed string, and the value
is preceded by no space at all, so no indentation width can make the
claimed shape match. -/
theorem title_example_not_claimed_shape :
    render MarkdownRenderer.default
        (Value.obj (EntryList.cons "title" (Value.str "My Project") EntryList.nil))
      ≠ "## Title\n\n   My Project\n" ∧
    ¬ IsSubstr " My Project"
      (render MarkdownRenderer.default
        (Value.obj (EntryList.cons "title" (Value.str "My Project") EntryList.nil))) := by
  constructor
  · decide
  · decide

/-- C3, amended: rendering `{"title": "My Project"}` with the default
configuration yields `## Title`, two blank lines (one from the header
formatting and one from the string branch), then the unindented value
terminated by a single newline. -/
theorem title_example_render_eq :
    render MarkdownRenderer.default
        (Value.obj (EntryList.cons "title" (Value.str "My Project") EntryList.nil))
      = "## Title\n\n\n\nMy Project\n" := by
  decide

/-- C4, counterexample: the sentence split of
`"Dr. Smith went home. He was tired."` produces three chunks, cutting
after "Dr." as well as after "home": the heuristic does not protect
"Dr.". -/
theorem abbrev_split_at_first_period :
    (regexSplit ("Dr. Smith went home. He was tired.").data).map String.mk
      = ["Dr", " Smith went home", " He was tired."] := by
  decide

/-- C4, amended: `split_at_period` splits the sentence at both the first
and the second period (the lookahead only protects a capital letter
immediately followed by a period, as in "U. S.", not "Dr."), consuming
the periods, trimming the chunks, and appending a double newline after
each chunk. -/
theorem abbrev_sentence_split_eq :
    split_at_period MarkdownRenderer.default
        "Dr. Smith went home. He was tired." 0
      = some "Dr\n\nSmith went home\n\nHe was tired.\n\n" := by
  decide

/-- C5, counterexample: a run of seven `#` characters in an input string
value appears verbatim in the output of `render`: no cleanup pass caps
hash runs in `render`. -/
theorem hash_run_in_render_output :
    IsSubstr "#######" (render MarkdownRenderer.default (Value.str "#######")) := by
  decide

/-- C5, amended: `render` itself performs no hash cleanup (the run of
seven survives); the collapse of `#######` to `######` is the separate
top-level string replacement of `just_do_it` in src/cht.rs, and that
replacement caps an exactly-seven run at six but leaves a run of seven
behind when the run has eight characters. -/
theorem hash_collapse_only_in_cht :
    render MarkdownRenderer.default (Value.str "#######") = "#######\n\n" ∧
    str_replace "#######\n\n" "#######" "######" = "######\n\n" ∧
    str_replace "########" "#######" "######" = "#######" := by
  refine ⟨by decide, by decide, by decide⟩

/-- C6, counterexample: splitting `"a. b"` produces `"a\n\nb\n\n"`, with
the double-newline separator also after the final chunk, not only
between consecutive chunks. -/
theorem split_trailing_separator :
    split_at_period MarkdownRenderer.default "a. b" 0 = some "a\n\nb\n\n" ∧
    "a\n\nb\n\n" ≠ "a\n\nb" := by
  constructor
  · decide
  · decide

/-- C6, amended: for every configuration, text and depth: if the text
has no qualifying split point the helper returns the text unchanged
(the borrowed result, modelled as `none`); otherwise it returns at least
two chunks, each trimmed, prefixed with the indentation of the given
depth and followed by a double newline, concatenated in order (including
after the final chunk). -/
theorem split_at_period_spec (cfg : MarkdownRenderer) (text : String) (depth : Nat) :
    ((¬ ∃ i, QualSplitAt text.data i) → split_at_period cfg text depth = none) ∧
    ((∃ i, QualSplitAt text.data i) →
      2 ≤ (regexSplit text.data).length ∧
      split_at_period cfg text depth =
        some (((regexSplit text.data).map (part_text cfg depth)).foldr (· ++ ·) "")) := by
  constructor
  · intro h
    have hm : hasMatch text.data = false := by
      cases hmb : hasMatch text.data with
      | false => rfl
      | true => exact absurd ((hasMatch_iff_qual _).mp hmb) h
    simp [split_at_period, hm]
  · intro h
    have hm : hasMatch text.data = true := (hasMatch_iff_qual _).mpr h
    refine ⟨hasMatch_splitAux_two _ _ hm, ?_⟩
    simp [split_at_period, hm, regexSplit, foldl_parts, String.empty_append]

/-- C6, witness for the amended theorem at the text `"a. b"`, which has
a qualifying split point at position 1. -/
theorem split_at_period_spec_witness :
    2 ≤ (regexSplit ("a. b").data).length ∧
    split_at_period MarkdownRenderer.default "a. b" 0 =
      some (((regexSplit ("a. b").data).map
        (part_text MarkdownRenderer.default 0)).foldr (· ++ ·) "") :=
  (split_at_period_spec MarkdownRenderer.default "a. b" 0).2
    ⟨1, [' ', 'b'], by decide, by decide⟩

/-- C7: rendering is total over every value kind by construction, and
the panic branch of the reflow helper is unreachable: whenever the regex
reports a match (`hasMatch`), the split is defined and produces at least
two chunks, so the fold over the chunks always yields a string. -/
theorem render_total_split_safe (text : List Char) (h : hasMatch text = true) :
    regexSplit text ≠ [] ∧ 2 ≤ (regexSplit text).length := by
  refine ⟨?_, hasMatch_splitAux_two _ _ h⟩
  intro hnil
  have := splitAux_length_pos text []
  rw [regexSplit] at hnil
  rw [hnil] at this
  simp at this

/-- C7, witness at the text `"a. b"`, on which the regex reports a
match. -/
theorem render_total_split_safe_witness :
    regexSplit ("a. b").data ≠ [] ∧ 2 ≤ (regexSplit ("a. b").data).length :=
  render_total_split_safe ("a. b").data (by decide)

/-- C8: whenever a null occurs anywhere in the input value (at the root,
as an object entry value, or as an array item), the output of `render`
contains the literal text `N/A`. -/
theorem null_renders_na (cfg : MarkdownRenderer) (v : Value) (h : HasNull v) :
    IsSubstr "N/A" (render cfg v) :=
  hasNull_render h cfg 0 RenderStyle.Root false

/-- C8, witness at the input `{"k": null}` with the default
configuration. -/
theorem null_renders_na_witness :
    IsSubstr "N/A" (render MarkdownRenderer.default
      (Value.obj (EntryList.cons "k" Value.null EntryList.nil))) :=
  null_renders_na MarkdownRenderer.default _
    (HasNull.inObj (k := "k") (by simp [EntryList.toList]) HasNull.here)

/-- C9: for every renderer configuration, the empty object renders to
the empty string and the empty array renders to the empty string. -/
theorem empty_containers_render_empty (cfg : MarkdownRenderer) :
    render cfg (Value.obj EntryList.nil) = "" ∧
    render cfg (Value.arr ValueList.nil) = "" :=
  ⟨rfl, rfl⟩

/-- C10: for every configuration, a scalar at the root renders as its
canonical text followed by exactly two newlines: the string itself, the
number or boolean text, or `N/A` for null, with no `: ` prefix, no
indentation, and no reflow. -/
theorem root_scalar_render (cfg : MarkdownRenderer) (s n : String) (b : Bool) :
    render cfg (Value.str s) = s ++ "\n\n" ∧
    render cfg (Value.num n) = n ++ "\n\n" ∧
    render cfg (Value.bool b) = boolText b ++ "\n\n" ∧
    render cfg Value.null = "N/A" ++ "\n\n" :=
  ⟨rfl, rfl, rfl, rfl⟩

end Json2Markdown
